import Mathlib

/-!
Verification of the `tfrt::HostContext` concurrency and memory substrate
(`include/tfrt/host_context/host_context.h`).

The header declares HostContext and carries the template bodies of the
future-returning work-submission overloads, the AsyncValueRef factory
functions, the shared-context accessors and the typed allocation wrappers.
Pieces whose bodies live outside the header (the AsyncValue state machine,
cancellation, ParallelFor, RunWhenReady, the slot table and the shared
context manager) are modelled from the specification; each such definition
says so in its doc comment.
-/

namespace HostContextSpec

/-! ## AsyncValue state machine

Modelled from the spec: the reference-counted single-assignment cell of
`async_value.h` (not part of the sources shown).  Its atomic state is one of
`Unconstructed | Constructed | ConcreteValue | ConcreteError`; the payload is
in place from `Constructed` onwards. -/

/-- Modelled from the spec: the state tag of an `AsyncValue` with payload
type `T`.  `constructed` holds an in-place payload that is not yet available;
`concreteValue` and `concreteError` are the two available states. -/
inductive AVState (T : Type) where
  | unconstructed
  | constructed (v : T)
  | concreteValue (v : T)
  | concreteError (msg : String)
deriving DecidableEq

/-- Modelled from the spec: `AsyncValue::IsAvailable()` — true exactly in the
`ConcreteValue` and `ConcreteError` states. -/
def IsAvailable {T : Type} : AVState T → Bool
  | .concreteValue _ => true
  | .concreteError _ => true
  | _ => false

/-- Modelled from the spec: `AsyncValueRef::emplace` / `SetAvailable`:
transition `Unconstructed|Constructed → ConcreteValue`, constructing the
payload if not already constructed.  Calling it on an already-available cell
is a contract violation, modelled as `none` (fatal). -/
def emplace {T : Type} (s : AVState T) (v : T) : Option (AVState T) :=
  match s with
  | .unconstructed => some (.concreteValue v)
  | .constructed _ => some (.concreteValue v)
  | _ => none

/-- Modelled from the spec: `AsyncValueRef::SetError`: transition to
`ConcreteError`, storing a diagnostic message.  Fatal (`none`) on an
already-available cell. -/
def setError {T : Type} (s : AVState T) (msg : String) : Option (AVState T) :=
  match s with
  | .unconstructed => some (.concreteError msg)
  | .constructed _ => some (.concreteError msg)
  | _ => none

/-- Modelled from the spec: `SetStateConcrete` — mark a `Constructed` cell
available with its existing payload.  Fatal on any other state. -/
def setStateConcrete {T : Type} (s : AVState T) : Option (AVState T) :=
  match s with
  | .constructed v => some (.concreteValue v)
  | _ => none

/-- A resolution operation on an `AsyncValue`. -/
inductive AVOp (T : Type) where
  | emplaceOp (v : T)
  | setErrorOp (msg : String)
  | setStateConcreteOp
deriving DecidableEq

/-- Apply one resolution operation; `none` models a fatal contract
violation. -/
def applyOp {T : Type} (s : AVState T) : AVOp T → Option (AVState T)
  | .emplaceOp v => emplace s v
  | .setErrorOp msg => setError s msg
  | .setStateConcreteOp => setStateConcrete s

/-- Rank of a state along the forward order
`Unconstructed → Constructed → {ConcreteValue | ConcreteError}`. -/
def stateRank {T : Type} : AVState T → Nat
  | .unconstructed => 0
  | .constructed _ => 1
  | .concreteValue _ => 2
  | .concreteError _ => 2

/-! ## Future-returning work submission

These two are template bodies present in the header
(`host_context.h:324-345`); the underlying `ConcurrentWorkQueue` is an
external collaborator, so its accept/reject decision is a parameter. -/

/-- Result of a future-returning enqueue: the state of the `AsyncValueRef`
handed back to the caller at return time, together with the wrapped task the
queue will eventually run against that cell. -/
structure EnqueuedFuture (R : Type) where
  returned : AVState R
  task : AVState R → Option (AVState R)

/-- Embedding of the future-returning `HostContext::EnqueueWork` overload
(`host_context.h:324-332`): make an unconstructed `AsyncValueRef<R>`, enqueue
a wrapper that emplaces the closure result, return the ref immediately. -/
def EnqueueWorkF {R : Type} (work : Unit → R) : EnqueuedFuture R :=
  { returned := AVState.unconstructed
    task := fun cell => emplace cell (work ()) }

/-- Embedding of the future-returning `HostContext::EnqueueBlockingWork`
overload (`host_context.h:334-345`): same wrapping, but the boolean-returning
`EnqueueBlockingWork` may reject the submission (`enqueued = false`), in
which case `SetError("Failed to enqueue blocking work.")` is applied to the
result before returning it.  The `Option` threads the (unreachable here)
fatal case of `SetError`. -/
def EnqueueBlockingWorkF {R : Type} (work : Unit → R) (enqueued : Bool) :
    Option (EnqueuedFuture R) :=
  let result : AVState R := AVState.unconstructed
  let task := fun cell => emplace cell (work ())
  if enqueued then
    some { returned := result, task := task }
  else
    (setError result "Failed to enqueue blocking work.").map
      (fun r => { returned := r, task := task })

/-! ## Cancellation (claim C4)

`GetCancelAsyncValue` is in the header (`host_context.h:111-113`): an acquire
load of the atomic `cancel_value_` pointer (null when not cancelled, else an
error AsyncValue holding the cancellation message).  The bodies of
`CancelExecution` and `Restart` are not in the sources shown. -/

/-- The cancellation-relevant state of a HostContext: `cancel_value_` is
`none` (null) in the Normal state, or `some msg` when cancelled, standing for
a pointer to an error AsyncValue whose payload is `msg`. -/
structure HostCancelState where
  cancel_value : Option String
deriving DecidableEq

/-- Embedding of `HostContext::GetCancelAsyncValue` (`host_context.h:111`):
returns the current `cancel_value_` (null in the Normal state). -/
def GetCancelAsyncValue (st : HostCancelState) : Option String :=
  st.cancel_value

/-- Modelled from the spec: `HostContext::CancelExecution(msg)` (body not in
the header) atomically installs a shared error AsyncValue holding `msg` as
the cancellation token, by compare-and-swap from null; if already cancelled
the CAS fails and the existing token is kept. -/
def CancelExecution (st : HostCancelState) (msg : String) : HostCancelState :=
  match st.cancel_value with
  | none => { cancel_value := some msg }
  | some m => { cancel_value := some m }

/-- Modelled from the spec: `HostContext::Restart` (body not in the header)
atomically clears the cancellation token, returning to the Normal state. -/
def Restart (_st : HostCancelState) : HostCancelState :=
  { cancel_value := none }

/-- The Normal (never-cancelled) state: `cancel_value_` is null. -/
def NormalState : HostCancelState :=
  { cancel_value := none }

/-! ## Typed allocation wrappers (claim C10)

`Allocate<T>` and `Deallocate<T>` are in the header
(`host_context.h:129-138`); the byte count is `sizeof(T) * num_elements`
computed in `size_t` arithmetic, i.e. modulo `2^w` for the `w`-bit `size_t`
of the platform. -/

/-- Embedding of `HostContext::Allocate<T>(num_elements)`
(`host_context.h:130-132`): the `(size, alignment)` pair passed to
`AllocateBytes` is `(sizeof(T) * num_elements mod 2^w, alignof(T))`; there is
no overflow check. -/
def AllocateRequest (w sizeofT alignofT numElements : Nat) : Nat × Nat :=
  (sizeofT * numElements % 2 ^ w, alignofT)

/-- Embedding of `HostContext::Deallocate<T>(ptr, num_elements)`
(`host_context.h:136-138`): the size passed to `DeallocateBytes` is the
identically computed `sizeof(T) * num_elements` in `size_t` arithmetic. -/
def DeallocateRequest (w sizeofT numElements : Nat) : Nat :=
  sizeofT * numElements % 2 ^ w

/-! ## Result-type deduction for the future overloads (claim C9)

`UnwrapExpected` and `ResultTypeT` are in the header
(`host_context.h:51-62`); we embed C++ types relevant to the deduction as a
small type-code datatype. -/

/-- C++ type codes for the result-type deduction: a base type, an
`Expected<T>`, or an `AsyncValueRef<T>`. -/
inductive CType where
  | base (name : String)
  | expected (t : CType)
  | asyncValueRef (t : CType)
deriving DecidableEq

/-- Embedding of the `UnwrapExpected` trait (`host_context.h:52-59`): the
partial specialization maps `Expected<T>` to `T`; the primary template maps
any other type to itself. -/
def UnwrapExpected : CType → CType
  | .expected t => t
  | t => t

/-- Embedding of `ResultTypeT<F>` (`host_context.h:61-62`):
`UnwrapExpected<result_of_t<F()>>::type`, as a function of the closure's
return type. -/
def ResultTypeT (closureRetTy : CType) : CType :=
  UnwrapExpected closureRetTy

/-- Return type of the future-returning `EnqueueWork` / `EnqueueBlockingWork`
overloads (`host_context.h:201-211`): `AsyncValueRef<R>` with
`R = ResultTypeT<F>`. -/
def EnqueueWorkReturnType (closureRetTy : CType) : CType :=
  CType.asyncValueRef (ResultTypeT closureRetTy)

/-- Static type of the argument the wrapped task passes to `emplace`
(`host_context.h:329` and `:339`): the wrapper body is
`result.emplace(work())`, so the argument is the closure's entire result. -/
def EnqueueWorkEmplaceArgType (closureRetTy : CType) : CType :=
  closureRetTy

/-! ## The process-wide HostContext instance table (claim C6)

The header declares
`static HostContext* all_host_contexts_[HostContextPtr::kDummyIndex]`
(`host_context.h:257`) and the class comment caps the number of concurrent
instances at `kDummyIndex` so a HostContext can be encoded in one byte.  The
constructor body that claims a slot is not in the sources shown. -/

/-- `HostContextPtr::kDummyIndex`, the capacity of `all_host_contexts_`.
Modelled from the spec: one-byte encoding reserves the dummy index, giving a
capacity of 256. -/
def kDummyIndex : Nat := 256

/-- The process-wide slot table `all_host_contexts_`: `slots i = true` iff
slot `i` is occupied by a live HostContext. -/
structure HostContextTable where
  slots : Fin kDummyIndex → Bool

/-- Number of live HostContext instances: the occupied slots of
`all_host_contexts_`. -/
def numLive (t : HostContextTable) : Nat :=
  (Finset.univ.filter (fun i => t.slots i = true)).card

/-- First free slot of `all_host_contexts_`, if any. -/
def freeSlot (t : HostContextTable) : Option (Fin kDummyIndex) :=
  (List.finRange kDummyIndex).find? (fun i => ! t.slots i)

/-- Modelled from the spec: constructing a HostContext claims one free slot
of `all_host_contexts_` for the whole lifetime of the instance (the claimed
index is the `const` member `instance_ptr_`); constructing beyond the
capacity is a fatal condition, modelled as `none`. -/
def constructHostContext (t : HostContextTable) :
    Option (Fin kDummyIndex × HostContextTable) :=
  (freeSlot t).map (fun i => (i, ⟨Function.update t.slots i true⟩))

/-- Modelled from the spec: destroying a HostContext releases its slot. -/
def destroyHostContext (t : HostContextTable) (i : Fin kDummyIndex) :
    HostContextTable :=
  ⟨Function.update t.slots i false⟩

/-- The empty table: no live HostContext. -/
def emptyHostContextTable : HostContextTable :=
  ⟨fun _ => false⟩

/-- Slot 0 of the table. -/
def slot0 : Fin kDummyIndex :=
  ⟨0, by decide⟩

/-- The table after the first construction: slot 0 occupied. -/
def oneLiveTable : HostContextTable :=
  ⟨Function.update emptyHostContextTable.slots slot0 true⟩

/-- The saturated table: every slot occupied. -/
def fullHostContextTable : HostContextTable :=
  ⟨fun _ => true⟩

/-! ## The shared join counter (claims C7 and C8)

Modelled from the spec: both `RunWhenReady` and `ParallelFor` join `k`
out-of-order completions through a shared atomic counter; the joined closure
(`callee` resp. `on_done`) fires when the counter reaches zero. -/

/-- State of a join: tasks still outstanding, and how many times the joined
closure has fired. -/
structure JoinState where
  remaining : Nat
  fired : Nat
deriving DecidableEq

/-- Modelled from the spec: initial join state for `k` outstanding tasks;
with nothing outstanding the closure fires immediately, exactly once. -/
def joinInit (k : Nat) : JoinState :=
  if k = 0 then { remaining := 0, fired := 1 }
  else { remaining := k, fired := 0 }

/-- Modelled from the spec: one task completing decrements the shared
counter; the completion that drives it to zero invokes the joined closure. -/
def completeOne (s : JoinState) : JoinState :=
  let r := s.remaining - 1
  if r = 0 then { remaining := r, fired := s.fired + 1 }
  else { remaining := r, fired := s.fired }

/-- Run a sequence of task completions through the join counter.  The list
element type is abstract: which task completes carries no information the
counter uses, which is exactly why completion order cannot matter. -/
def runCompletions {α : Type} (s : JoinState) : List α → JoinState
  | [] => s
  | _ :: rest => runCompletions (completeOne s) rest

/-! ## ParallelFor partitioning (claim C7)

Modelled from the spec: `ParallelFor(n, compute, on_done, min_block_size)`
(`host_context.h:225-228`, body not in the sources shown) partitions `[0, n)`
into near-equal consecutive blocks, never more than `n / min_block_size` of
them, so that every block holds at least `min_block_size` elements whenever
`n ≥ min_block_size`, and dispatches `compute` once per block. -/

/-- Number of blocks: `max 1 (n / min_block_size)` (with a zero
`min_block_size` treated as 1). -/
def numBlocks (n minBlockSize : Nat) : Nat :=
  max 1 (n / max 1 minBlockSize)

/-- Start offset of block `i` out of `nb` over `[0, n)`: `i * n / nb`. -/
def blockStart (n nb i : Nat) : Nat :=
  i * n / nb

/-- The list of `[start, end)` subranges `compute` is invoked on. -/
def parallelForBlocks (n minBlockSize : Nat) : List (Nat × Nat) :=
  if n = 0 then []
  else
    (List.range (numBlocks n minBlockSize)).map
      (fun i => (blockStart n (numBlocks n minBlockSize) i,
                 blockStart n (numBlocks n minBlockSize) (i + 1)))

/-! ## Shared contexts (claim C5)

`GetOrCreateSharedContext<T>` and `DenseIdForSharedContext<T>` are template
bodies in the header (`host_context.h:308-322`); the id is a C++ static
local initialized from the process-wide `num_shared_context_types_` counter.
The `SharedContextManager` that stores the per-HostContext instances lives
outside the sources shown and is modelled from the spec.  C++ types are
embedded as `Nat` keys and instances as allocation tokens, so that
"identical instance" is expressible. -/

/-- Process-wide dense-id state: the `num_shared_context_types_` counter and
the per-type static `id` locals (`none` = not yet initialized). -/
structure DenseIdState where
  counter : Nat
  ids : Nat → Option Nat

/-- Embedding of `DenseIdForSharedContext<T>` (`host_context.h:318-322`):
the static local `id` is initialized from `num_shared_context_types_++` on
the first call for the type and returned unchanged afterwards. -/
def DenseIdForSharedContext (st : DenseIdState) (key : Nat) :
    Nat × DenseIdState :=
  match st.ids key with
  | some id => (id, st)
  | none =>
      (st.counter,
       { counter := st.counter + 1,
         ids := fun k => if k = key then some st.counter else st.ids k })

/-- Combined state of the process-wide id table and one HostContext's
SharedContextManager (`contexts` maps a dense id to the stored instance
token; `nextToken` allocates fresh instance identities). -/
structure SharedCtxState where
  denseIds : DenseIdState
  contexts : Nat → Option Nat
  nextToken : Nat

/-- Embedding of `GetOrCreateSharedContext<T>` (`host_context.h:308-316`)
over the manager modelled from the spec: compute the dense id for the type,
look it up in this HostContext's manager, and if absent run the factory
exactly once (lock-guarded, so calls serialize) and store the instance.
Returns the instance token, whether this call constructed it, and the new
state. -/
def GetOrCreateSharedContext (st : SharedCtxState) (key : Nat) :
    Nat × Bool × SharedCtxState :=
  let p := DenseIdForSharedContext st.denseIds key
  match st.contexts p.1 with
  | some tok => (tok, false, { st with denseIds := p.2 })
  | none =>
      (st.nextToken, true,
       { denseIds := p.2,
         contexts := fun i => if i = p.1 then some st.nextToken else st.contexts i,
         nextToken := st.nextToken + 1 })

/-- Run a serialized sequence of `GetOrCreateSharedContext` calls (the
spec's lock makes concurrent first calls serialize), producing the trace of
`(type key, instance token, constructed-now)` observations. -/
def runSharedCtxCalls (st : SharedCtxState) :
    List Nat → List (Nat × Nat × Bool) × SharedCtxState
  | [] => ([], st)
  | k :: rest =>
      let r := GetOrCreateSharedContext st k
      let rec2 := runSharedCtxCalls r.2.2 rest
      ((k, r.1, r.2.1) :: rec2.1, rec2.2)

/-- Fresh process: no ids assigned, no instances stored. -/
def initialSharedCtxState : SharedCtxState :=
  { denseIds := { counter := 0, ids := fun _ => none },
    contexts := fun _ => none,
    nextToken := 0 }

/-- Number of constructions observed for type `key` in a call trace. -/
def countBuilt (tr : List (Nat × Nat × Bool)) (key : Nat) : Nat :=
  (tr.filter (fun e => e.1 == key && e.2.2)).length

/-- The instance stored for type `key` in a state, if its id is assigned and
the manager holds one. -/
def keyInst (st : SharedCtxState) (key : Nat) : Option Nat :=
  match st.denseIds.ids key with
  | some i => st.contexts i
  | none => none

/-- Well-formedness of a `SharedCtxState`: assigned ids are injective and
below the counter, and the manager stores nothing at unassigned ids. -/
def SharedInv (st : SharedCtxState) : Prop :=
  (∀ k k' i, st.denseIds.ids k = some i → st.denseIds.ids k' = some i → k = k') ∧
  (∀ k i, st.denseIds.ids k = some i → i < st.denseIds.counter) ∧
  (∀ i, st.denseIds.counter ≤ i → st.contexts i = none)

end HostContextSpec

namespace HostContextSpec

/-! ## Theorems for claims C1-C3 -/

/-- **C1.** If the boolean-returning `EnqueueBlockingWork` rejects the
submission, the `AsyncValueRef<R>` returned by the future overload is already
resolved to the error `"Failed to enqueue blocking work."` (available, never
pending) at the moment it is returned; if submission succeeds the returned
ref is pending and running the wrapped task makes it hold the closure's
result. -/
theorem enqueueBlockingWork_rejection_resolves_error {R : Type} (work : Unit → R) :
    (∃ fut : EnqueuedFuture R,
        EnqueueBlockingWorkF work false = some fut ∧
        fut.returned = AVState.concreteError "Failed to enqueue blocking work." ∧
        IsAvailable fut.returned = true) ∧
    (∃ fut : EnqueuedFuture R,
        EnqueueBlockingWorkF work true = some fut ∧
        fut.returned = AVState.unconstructed ∧
        IsAvailable fut.returned = false ∧
        fut.task fut.returned = some (AVState.concreteValue (work ()))) := by
  refine ⟨⟨⟨AVState.concreteError "Failed to enqueue blocking work.",
            fun cell => emplace cell (work ())⟩, ?_, rfl, rfl⟩,
          ⟨⟨AVState.unconstructed, fun cell => emplace cell (work ())⟩, ?_, rfl, rfl, rfl⟩⟩
  · rfl
  · rfl

/-- **C1 witness.** Concrete instance at `R = Nat`, `work () = 7`. -/
theorem enqueueBlockingWork_rejection_resolves_error_witness :
    (∃ fut : EnqueuedFuture Nat,
        EnqueueBlockingWorkF (fun _ => 7) false = some fut ∧
        fut.returned = AVState.concreteError "Failed to enqueue blocking work." ∧
        IsAvailable fut.returned = true) ∧
    (∃ fut : EnqueuedFuture Nat,
        EnqueueBlockingWorkF (fun _ => 7) true = some fut ∧
        fut.returned = AVState.unconstructed ∧
        IsAvailable fut.returned = false ∧
        fut.task fut.returned = some (AVState.concreteValue 7)) :=
  enqueueBlockingWork_rejection_resolves_error (fun _ => 7)

/-- **C2.** `EnqueueWork(F)` creates a fresh `Unconstructed` AsyncValueRef,
returns it immediately (not yet available), and the wrapped task emplaces
exactly `F`'s result, so once available the cell holds that result. -/
theorem enqueueWork_future_holds_closure_result {R : Type} (work : Unit → R) :
    (EnqueueWorkF work).returned = AVState.unconstructed ∧
    IsAvailable (EnqueueWorkF work).returned = false ∧
    (EnqueueWorkF work).task (EnqueueWorkF work).returned =
      some (AVState.concreteValue (work ())) := by
  exact ⟨rfl, rfl, rfl⟩

/-- **C2 witness.** `EnqueueWork([]{ return 2+2; })` yields a cell that,
once the task has run, holds `4`. -/
theorem enqueueWork_future_holds_closure_result_witness :
    (EnqueueWorkF (fun _ => 2 + 2)).returned = (AVState.unconstructed : AVState Nat) ∧
    IsAvailable (EnqueueWorkF (fun _ => 2 + 2)).returned = false ∧
    (EnqueueWorkF (fun _ => 2 + 2)).task (EnqueueWorkF (fun _ => 2 + 2)).returned =
      some (AVState.concreteValue 4) :=
  enqueueWork_future_holds_closure_result (fun _ => (2 + 2 : Nat))

/-- **C3.** The AsyncValue state machine only moves forward along
`Unconstructed → Constructed → {ConcreteValue | ConcreteError}`: every
successful resolution operation strictly increases the state rank, starts
from a not-yet-available state, and lands in an available state (so
`IsAvailable` flips from false to true at exactly one operation); invoking
any resolution operation on an already-available cell is fatal (`none`), so
after availability the payload is immutable. -/
theorem asyncValue_state_only_moves_forward {T : Type} :
    (∀ (s s' : AVState T) (op : AVOp T), applyOp s op = some s' →
        stateRank s < stateRank s' ∧ IsAvailable s = false ∧ IsAvailable s' = true) ∧
    (∀ (s : AVState T) (op : AVOp T), IsAvailable s = true → applyOp s op = none) := by
  constructor
  · intro s s' op h
    cases op <;> cases s <;>
      simp [applyOp, emplace, setError, setStateConcrete] at h <;>
      subst h <;> simp [stateRank, IsAvailable]
  · intro s op h
    cases op <;> cases s <;>
      simp [IsAvailable] at h <;>
      rfl

/-- **C3 witness.** Concrete run at `T = Nat`: emplacing 4 into an
unconstructed cell advances the rank and makes it available, and a second
resolution on the now-available cell is fatal. -/
theorem asyncValue_state_only_moves_forward_witness :
    (stateRank (AVState.unconstructed : AVState Nat) <
        stateRank (AVState.concreteValue 4) ∧
      IsAvailable (AVState.unconstructed : AVState Nat) = false ∧
      IsAvailable (AVState.concreteValue (4 : Nat)) = true) ∧
    applyOp (AVState.concreteValue (4 : Nat)) (AVOp.setErrorOp "again") = none :=
  ⟨(asyncValue_state_only_moves_forward (T := Nat)).1
      AVState.unconstructed (AVState.concreteValue 4) (AVOp.emplaceOp 4) rfl,
    (asyncValue_state_only_moves_forward (T := Nat)).2
      (AVState.concreteValue 4) (AVOp.setErrorOp "again") rfl⟩

/-- **C4.** Starting in the Normal state, `CancelExecution("boom")` makes
`GetCancelAsyncValue()` return a non-null token with payload `"boom"`; a
subsequent `Restart()` makes it return null again; and in the Normal state
`GetCancelAsyncValue()` is null. -/
theorem cancelExecution_installs_and_restart_clears (st : HostCancelState)
    (h : st.cancel_value = none) :
    GetCancelAsyncValue (CancelExecution st "boom") = some "boom" ∧
    GetCancelAsyncValue (Restart (CancelExecution st "boom")) = none ∧
    GetCancelAsyncValue NormalState = none := by
  refine ⟨?_, rfl, rfl⟩
  simp [GetCancelAsyncValue, CancelExecution, h]

/-- **C4 witness.** Concrete run from the Normal state. -/
theorem cancelExecution_installs_and_restart_clears_witness :
    GetCancelAsyncValue (CancelExecution NormalState "boom") = some "boom" ∧
    GetCancelAsyncValue (Restart (CancelExecution NormalState "boom")) = none ∧
    GetCancelAsyncValue NormalState = none :=
  cancelExecution_installs_and_restart_clears NormalState rfl

/-- `CType.expected` has no fixed point: `T ≠ Expected<T>`. -/
theorem ctype_ne_expected_self (t : CType) : t ≠ CType.expected t := by
  induction t with
  | base name => intro h; cases h
  | expected s ih => intro h; exact ih (CType.expected.inj h)
  | asyncValueRef s _ => intro h; cases h

/-- **C9.** For a closure returning `Expected<T>`, the future-returning
overloads deduce the result type as `T` (`UnwrapExpected` strips one
`Expected` layer), so the return type is `AsyncValueRef<T>` — not
`AsyncValueRef<Expected<T>>` — while the wrapped task passes the closure's
entire `Expected<T>` result to `emplace`. -/
theorem unwrapExpected_deduces_unwrapped_result (t : CType) :
    UnwrapExpected (CType.expected t) = t ∧
    EnqueueWorkReturnType (CType.expected t) = CType.asyncValueRef t ∧
    EnqueueWorkReturnType (CType.expected t) ≠
      CType.asyncValueRef (CType.expected t) ∧
    EnqueueWorkEmplaceArgType (CType.expected t) = CType.expected t := by
  refine ⟨rfl, rfl, ?_, rfl⟩
  intro h
  exact ctype_ne_expected_self t (CType.asyncValueRef.inj h)

/-- **C9 witness.** Concrete instance at `T = int`. -/
theorem unwrapExpected_deduces_unwrapped_result_witness :
    UnwrapExpected (CType.expected (CType.base "int")) = CType.base "int" ∧
    EnqueueWorkReturnType (CType.expected (CType.base "int")) =
      CType.asyncValueRef (CType.base "int") ∧
    EnqueueWorkReturnType (CType.expected (CType.base "int")) ≠
      CType.asyncValueRef (CType.expected (CType.base "int")) ∧
    EnqueueWorkEmplaceArgType (CType.expected (CType.base "int")) =
      CType.expected (CType.base "int") :=
  unwrapExpected_deduces_unwrapped_result (CType.base "int")

/-- **C10.** `Allocate<T>(n)` requests exactly
`sizeof(T) * n mod 2^w` bytes with alignment `alignof(T)`; when the true
byte count reaches `2^w` the requested size wraps and is strictly smaller
than the true product; and `Deallocate<T>` passes the identically computed
size to `DeallocateBytes`. -/
theorem allocate_wraps_modulo_size_t (w sizeofT alignofT numElements : Nat)
    (h : 2 ^ w ≤ sizeofT * numElements) :
    AllocateRequest w sizeofT alignofT numElements =
      (sizeofT * numElements % 2 ^ w, alignofT) ∧
    (AllocateRequest w sizeofT alignofT numElements).1 < sizeofT * numElements ∧
    DeallocateRequest w sizeofT numElements =
      (AllocateRequest w sizeofT alignofT numElements).1 := by
  refine ⟨rfl, ?_, rfl⟩
  calc (AllocateRequest w sizeofT alignofT numElements).1
      = sizeofT * numElements % 2 ^ w := rfl
    _ < 2 ^ w := Nat.mod_lt _ (Nat.pos_pow_of_pos w (by decide))
    _ ≤ sizeofT * numElements := h

/-- **C10 witness.** `w = 64`, `sizeof(T) = 8`, `n = 2^61 + 1`: the true
byte count `2^64 + 8` exceeds `SIZE_MAX`, the request wraps to `8`, strictly
below the true product, and `Deallocate` computes the same wrapped size. -/
theorem allocate_wraps_modulo_size_t_witness :
    AllocateRequest 64 8 8 (2 ^ 61 + 1) =
      (8 * (2 ^ 61 + 1) % 2 ^ 64, 8) ∧
    (AllocateRequest 64 8 8 (2 ^ 61 + 1)).1 < 8 * (2 ^ 61 + 1) ∧
    DeallocateRequest 64 8 (2 ^ 61 + 1) =
      (AllocateRequest 64 8 8 (2 ^ 61 + 1)).1 :=
  allocate_wraps_modulo_size_t 64 8 8 (2 ^ 61 + 1) (by norm_num)

/-- **C6.** At most `kDummyIndex` (256) HostContext instances exist
concurrently: the live count never exceeds the capacity of
`all_host_contexts_`; constructing when the table is saturated is fatal
(`none`), not a recoverable error; and a successful construction claims
exactly one previously-free slot, leaving every other slot untouched, so
each live instance occupies exactly one slot for its lifetime. -/
theorem hostContext_instances_bounded (t : HostContextTable) :
    numLive t ≤ kDummyIndex ∧
    (numLive t = kDummyIndex → constructHostContext t = none) ∧
    (∀ i t', constructHostContext t = some (i, t') →
        t.slots i = false ∧ t'.slots i = true ∧
        (∀ j, j ≠ i → t'.slots j = t.slots j) ∧
        numLive t' = numLive t + 1) := by
  refine ⟨?_, ?_, ?_⟩
  · unfold numLive
    calc (Finset.univ.filter (fun i => t.slots i = true)).card
        ≤ Finset.univ.card := Finset.card_filter_le _ _
      _ = Fintype.card (Fin kDummyIndex) := Finset.card_univ
      _ = kDummyIndex := Fintype.card_fin _
  · intro hfull
    have huniv : (Finset.univ.filter (fun i => t.slots i = true)) = Finset.univ := by
      apply Finset.eq_univ_of_card
      rw [Fintype.card_fin]
      exact hfull
    have hall : ∀ i : Fin kDummyIndex, t.slots i = true := by
      intro i
      have hmem : i ∈ Finset.univ.filter (fun i => t.slots i = true) := by
        rw [huniv]; exact Finset.mem_univ i
      exact (Finset.mem_filter.mp hmem).2
    have hnone : freeSlot t = none := by
      have : (List.finRange kDummyIndex).find? (fun i => ! t.slots i) = none := by
        rw [List.find?_eq_none]
        intro i _
        simp [hall i]
      exact this
    rw [constructHostContext, hnone, Option.map_none']
  · intro i t' h
    cases hfs : freeSlot t with
    | none =>
        rw [constructHostContext, hfs, Option.map_none'] at h
        exact absurd h (by simp)
    | some j =>
        rw [constructHostContext, hfs, Option.map_some'] at h
        have h2 : (j, (⟨Function.update t.slots j true⟩ : HostContextTable)) = (i, t') :=
          Option.some.inj h
        have hji : j = i := congrArg Prod.fst h2
        have hfree : t.slots j = false := by
          have hj : (fun i => ! t.slots i) j = true :=
            List.find?_some (p := fun i => ! t.slots i) hfs
          simpa using hj
        have ht' : (⟨Function.update t.slots j true⟩ : HostContextTable) = t' :=
          congrArg Prod.snd h2
        subst hji
        subst ht'
        refine ⟨hfree, ?_, ?_, ?_⟩
        · exact Function.update_same j true t.slots
        · intro a ha
          exact Function.update_noteq ha true t.slots
        · have hins : (Finset.univ.filter
              (fun a => Function.update t.slots j true a = true)) =
              insert j (Finset.univ.filter (fun a => t.slots a = true)) := by
            ext a
            by_cases ha : a = j
            · subst ha
              simp [Function.update_same]
            · simp [Function.update_noteq ha, ha]
          unfold numLive
          show (Finset.univ.filter
              (fun a => Function.update t.slots j true a = true)).card = _
          rw [hins, Finset.card_insert_of_not_mem (by simp [hfree])]

set_option maxRecDepth 4000 in
/-- **C6 witness.** Constructing on the saturated table is fatal; the first
construction on the empty table claims exactly slot 0 and raises the live
count from 0 to 1. -/
theorem hostContext_instances_bounded_witness :
    constructHostContext fullHostContextTable = none ∧
    emptyHostContextTable.slots slot0 = false ∧
    oneLiveTable.slots slot0 = true ∧
    numLive oneLiveTable = numLive emptyHostContextTable + 1 := by
  have hfull : numLive fullHostContextTable = kDummyIndex := by
    unfold numLive
    have hft : (Finset.univ.filter (fun i => fullHostContextTable.slots i = true)) =
        (Finset.univ : Finset (Fin kDummyIndex)) := by
      apply Finset.filter_true_of_mem
      intro i _
      rfl
    rw [hft, Finset.card_univ, Fintype.card_fin]
  have h2 := (hostContext_instances_bounded fullHostContextTable).2.1 hfull
  have h3 := (hostContext_instances_bounded emptyHostContextTable).2.2 slot0 oneLiveTable rfl
  exact ⟨h2, h3.1, h3.2.1, h3.2.2.2⟩

/-- While completions are still outstanding, the join counter just counts
down and the joined closure has not fired. -/
theorem runCompletions_not_done {α : Type} (l : List α) :
    ∀ s : JoinState, l.length < s.remaining →
      runCompletions s l = ⟨s.remaining - l.length, s.fired⟩ := by
  induction l with
  | nil => intro s _; simp [runCompletions]
  | cons a rest ih =>
      intro s h
      have hlen : rest.length + 1 < s.remaining := by
        simpa [List.length_cons] using h
      have hr : s.remaining - 1 ≠ 0 := by omega
      show runCompletions (completeOne s) rest = _
      have hc : completeOne s = ⟨s.remaining - 1, s.fired⟩ := by
        simp [completeOne, hr]
      rw [hc, ih ⟨s.remaining - 1, s.fired⟩ (by simp; omega)]
      simp [List.length_cons, JoinState.mk.injEq]
      omega

/-- The completion that exhausts the counter fires the joined closure
exactly once more. -/
theorem runCompletions_done {α : Type} (l : List α) :
    ∀ s : JoinState, l.length = s.remaining → 0 < s.remaining →
      (runCompletions s l).fired = s.fired + 1 := by
  induction l with
  | nil =>
      intro s h h2
      rw [List.length_nil] at h
      omega
  | cons a rest ih =>
      intro s h h2
      rw [List.length_cons] at h
      by_cases hone : s.remaining = 1
      · have hrest : rest = [] := List.eq_nil_of_length_eq_zero (by omega)
        subst hrest
        simp [runCompletions, completeOne, hone]
      · have hr : s.remaining - 1 ≠ 0 := by omega
        show (runCompletions (completeOne s) rest).fired = _
        have hc : completeOne s = ⟨s.remaining - 1, s.fired⟩ := by
          simp [completeOne, hr]
        rw [hc]
        exact ih ⟨s.remaining - 1, s.fired⟩ (by simp; omega) (by simp; omega)

/-- A join over `k` tasks fires its closure exactly once, at the `k`-th
completion and not before, for every completion sequence. -/
theorem join_fires_once {α : Type} (k : Nat) (order : List α)
    (hlen : order.length = k) :
    (runCompletions (joinInit k) order).fired = 1 ∧
    ∀ j, j < k → (runCompletions (joinInit k) (order.take j)).fired = 0 := by
  constructor
  · rcases Nat.eq_zero_or_pos k with h0 | hpos
    · subst h0
      have : order = [] := List.eq_nil_of_length_eq_zero hlen
      subst this
      simp [runCompletions, joinInit]
    · have hne : k ≠ 0 := by omega
      have hinit : joinInit k = ⟨k, 0⟩ := by simp [joinInit, hne]
      rw [hinit]
      exact runCompletions_done order ⟨k, 0⟩ (by simpa using hlen) (by simpa using hpos)
  · intro j hj
    have hne : k ≠ 0 := by omega
    have hinit : joinInit k = ⟨k, 0⟩ := by simp [joinInit, hne]
    have htk : (order.take j).length = j := by
      rw [List.length_take, hlen]
      exact Nat.min_eq_left (le_of_lt hj)
    rw [hinit, runCompletions_not_done (order.take j) ⟨k, 0⟩ (by simp [htk]; omega)]

/-- **C8.** `RunWhenReady([v1..vn], f)` invokes `f` exactly once, and only
after all `n` values have completed (each exactly once, in an arbitrary
order): for every duplicate-free completion order of all `n` values the
join fires exactly once, and for every proper prefix of the order it has
not fired.  Registration itself is a pure state construction (`joinInit`),
returning immediately — it never blocks the calling thread. -/
theorem runWhenReady_fires_once_after_all (n : Nat) (order : List (Fin n))
    (hnd : order.Nodup) (hlen : order.length = n) :
    (runCompletions (joinInit n) order).fired = 1 ∧
    ∀ k, k < n → (runCompletions (joinInit n) (order.take k)).fired = 0 := by
  have := hnd
  exact join_fires_once n order hlen

/-- **C8 witness.** Two values completing in order `[v0, v1]`: the closure
has not fired after zero or one completion, and has fired exactly once after
both. -/
theorem runWhenReady_fires_once_after_all_witness :
    (runCompletions (joinInit 2) [(0 : Fin 2), 1]).fired = 1 ∧
    (runCompletions (joinInit 2) ([(0 : Fin 2), 1].take 0)).fired = 0 ∧
    (runCompletions (joinInit 2) ([(0 : Fin 2), 1].take 1)).fired = 0 := by
  have h := runWhenReady_fires_once_after_all 2 [0, 1] (by decide) rfl
  exact ⟨h.1, h.2 0 (by decide), h.2 1 (by decide)⟩

/-- Sum of floors is at most the floor of the sum. -/
theorem nat_div_add_div_le (a b c : Nat) (hc : 0 < c) :
    a / c + b / c ≤ (a + b) / c := by
  rw [Nat.le_div_iff_mul_le hc]
  have h1 : a / c * c ≤ a := Nat.div_mul_le_self a c
  have h2 : b / c * c ≤ b := Nat.div_mul_le_self b c
  calc (a / c + b / c) * c = a / c * c + b / c * c := Nat.add_mul _ _ _
    _ ≤ a + b := Nat.add_le_add h1 h2

/-- Block 0 starts at offset 0. -/
theorem blockStart_zero (n nb : Nat) : blockStart n nb 0 = 0 := by
  simp [blockStart]

/-- Block `nb` (one past the last) starts at offset `n`. -/
theorem blockStart_last (n nb : Nat) (h : 0 < nb) : blockStart n nb nb = n :=
  Nat.mul_div_cancel_left n h

/-- Block starts are monotone in the block index. -/
theorem blockStart_mono (n nb : Nat) {i j : Nat} (h : i ≤ j) :
    blockStart n nb i ≤ blockStart n nb j :=
  Nat.div_le_div_right (Nat.mul_le_mul_right n h)

/-- Each block spans at least `n / nb` elements. -/
theorem blockStart_succ_ge (n nb i : Nat) (h : 0 < nb) :
    blockStart n nb i + n / nb ≤ blockStart n nb (i + 1) := by
  have hle := nat_div_add_div_le (i * n) n nb h
  have he : i * n + n = (i + 1) * n := by ring
  rw [he] at hle
  simpa [blockStart] using hle

/-- Interval search: any point below the last boundary and at or above the
first lies in some `[f i, f (i+1))` with `i < m`. -/
theorem exists_block_of_lt (f : Nat → Nat) :
    ∀ m x, f 0 ≤ x → x < f m → ∃ i, i < m ∧ f i ≤ x ∧ x < f (i + 1) := by
  intro m
  induction m with
  | zero => intro x h1 h2; omega
  | succ m ih =>
      intro x h1 h2
      by_cases hx : x < f m
      · obtain ⟨i, hi, hl, hr⟩ := ih x h1 hx
        exact ⟨i, by omega, hl, hr⟩
      · exact ⟨m, by omega, by omega, h2⟩

/-- There is always at least one block. -/
theorem numBlocks_pos (n mbs : Nat) : 0 < numBlocks n mbs :=
  lt_of_lt_of_le Nat.zero_lt_one (le_max_left 1 _)

/-- Whenever `min_block_size ≤ n`, each of the `n / max 1 min_block_size`
blocks gets at least `min_block_size` elements. -/
theorem min_le_div_numBlocks (n mbs : Nat) (hn : 0 < n) (h : mbs ≤ n) :
    mbs ≤ n / numBlocks n mbs := by
  have hm : 0 < max 1 mbs := lt_of_lt_of_le Nat.zero_lt_one (le_max_left 1 mbs)
  have hmn : max 1 mbs ≤ n := max_le hn h
  have hq : 1 ≤ n / max 1 mbs := (Nat.one_le_div_iff hm).mpr hmn
  have hnb : numBlocks n mbs = n / max 1 mbs := by
    unfold numBlocks
    exact max_eq_right hq
  rw [hnb]
  refine le_trans (le_max_right 1 mbs) ?_
  rw [Nat.le_div_iff_mul_le (lt_of_lt_of_le Nat.zero_lt_one hq)]
  calc max 1 mbs * (n / max 1 mbs) = n / max 1 mbs * max 1 mbs := Nat.mul_comm _ _
    _ ≤ n := Nat.div_mul_le_self n _

/-- **C7.** `ParallelFor(n, compute, on_done, min_block_size)` invokes
`compute` on subranges that cover `[0, n)` exactly (every point below `n`
lies in a dispatched block and nothing outside does), with no overlaps (two
blocks sharing a point are the same block), each block holding at least
`min_block_size` elements whenever `min_block_size ≤ n`; and `on_done` fires
exactly once, only after all block tasks completed (in any completion
order), including the degenerate single-partition and empty cases. -/
theorem parallelFor_covers_and_fires_once (n mbs : Nat) :
    (∀ x, x < n ↔ ∃ p ∈ parallelForBlocks n mbs, p.1 ≤ x ∧ x < p.2) ∧
    (∀ p ∈ parallelForBlocks n mbs, ∀ q ∈ parallelForBlocks n mbs, ∀ x,
        p.1 ≤ x → x < p.2 → q.1 ≤ x → x < q.2 → p = q) ∧
    (mbs ≤ n → ∀ p ∈ parallelForBlocks n mbs, mbs ≤ p.2 - p.1) ∧
    (∀ order : List Nat, order.length = (parallelForBlocks n mbs).length →
        (runCompletions (joinInit (parallelForBlocks n mbs).length) order).fired = 1 ∧
        ∀ k, k < (parallelForBlocks n mbs).length →
          (runCompletions (joinInit (parallelForBlocks n mbs).length)
            (order.take k)).fired = 0) := by
  rcases Nat.eq_zero_or_pos n with h0 | hpos
  · subst h0
    have hL : parallelForBlocks 0 mbs = [] := by
      rw [parallelForBlocks]; simp
    refine ⟨?_, ?_, ?_, ?_⟩
    · intro x; simp [hL]
    · intro p hp
      rw [hL] at hp
      exact absurd hp (List.not_mem_nil p)
    · intro h p hp
      rw [hL] at hp
      exact absurd hp (List.not_mem_nil p)
    · intro order hlen
      exact join_fires_once _ order hlen
  · have hne : n ≠ 0 := by omega
    have hL : parallelForBlocks n mbs = (List.range (numBlocks n mbs)).map
        (fun i => (blockStart n (numBlocks n mbs) i,
                   blockStart n (numBlocks n mbs) (i + 1))) := by
      rw [parallelForBlocks, if_neg hne]
    have hnb : 0 < numBlocks n mbs := numBlocks_pos n mbs
    refine ⟨?_, ?_, ?_, ?_⟩
    · intro x
      constructor
      · intro hx
        obtain ⟨i, hi, hl, hr⟩ := exists_block_of_lt
          (blockStart n (numBlocks n mbs)) (numBlocks n mbs) x
          (by rw [blockStart_zero]; exact Nat.zero_le x)
          (by rw [blockStart_last n _ hnb]; exact hx)
        refine ⟨(blockStart n (numBlocks n mbs) i,
                 blockStart n (numBlocks n mbs) (i + 1)), ?_, hl, hr⟩
        rw [hL]
        exact List.mem_map.mpr ⟨i, List.mem_range.mpr hi, rfl⟩
      · rintro ⟨p, hp, hl, hr⟩
        rw [hL] at hp
        obtain ⟨i, hi, hpi⟩ := List.mem_map.mp hp
        have hi' : i + 1 ≤ numBlocks n mbs := List.mem_range.mp hi
        have hp2e : p.2 = blockStart n (numBlocks n mbs) (i + 1) := by
          rw [← hpi]
        have hend : blockStart n (numBlocks n mbs) (i + 1) ≤ n := by
          calc blockStart n (numBlocks n mbs) (i + 1)
              ≤ blockStart n (numBlocks n mbs) (numBlocks n mbs) :=
                blockStart_mono n _ hi'
            _ = n := blockStart_last n _ hnb
        omega
    · intro p hp q hq x hp1 hp2 hq1 hq2
      rw [hL] at hp hq
      obtain ⟨i, hi, hpi⟩ := List.mem_map.mp hp
      obtain ⟨j, hj, hqj⟩ := List.mem_map.mp hq
      have hp1e : p.1 = blockStart n (numBlocks n mbs) i := by rw [← hpi]
      have hp2e : p.2 = blockStart n (numBlocks n mbs) (i + 1) := by rw [← hpi]
      have hq1e : q.1 = blockStart n (numBlocks n mbs) j := by rw [← hqj]
      have hq2e : q.2 = blockStart n (numBlocks n mbs) (j + 1) := by rw [← hqj]
      have hij : i = j := by
        rcases Nat.lt_trichotomy i j with hlt | heq | hgt
        · exfalso
          have h1 : blockStart n (numBlocks n mbs) (i + 1) ≤
              blockStart n (numBlocks n mbs) j := blockStart_mono n _ (by omega)
          omega
        · exact heq
        · exfalso
          have h1 : blockStart n (numBlocks n mbs) (j + 1) ≤
              blockStart n (numBlocks n mbs) i := blockStart_mono n _ (by omega)
          omega
      rw [← hpi, ← hqj, hij]
    · intro hmn p hp
      rw [hL] at hp
      obtain ⟨i, hi, hpi⟩ := List.mem_map.mp hp
      have hp1e : p.1 = blockStart n (numBlocks n mbs) i := by rw [← hpi]
      have hp2e : p.2 = blockStart n (numBlocks n mbs) (i + 1) := by rw [← hpi]
      have hd : mbs ≤ n / numBlocks n mbs := min_le_div_numBlocks n mbs hpos hmn
      have hs := blockStart_succ_ge n (numBlocks n mbs) i hnb
      omega
    · intro order hlen
      exact join_fires_once _ order hlen

/-- **C7 witness.** The spec's example `n = 100`, `min_block_size = 10`:
offset 5 is covered by the dispatched block `[0, 10)`, that block is the
unique block containing 5, it holds at least 10 elements, and `on_done`
fires exactly once after all 10 block completions and not after only 9. -/
theorem parallelFor_covers_and_fires_once_witness :
    (5 : Nat) < 100 ∧
    ((0 : Nat), (10 : Nat)) = ((0 : Nat), (10 : Nat)) ∧
    (10 : Nat) ≤ ((0 : Nat), (10 : Nat)).2 - ((0 : Nat), (10 : Nat)).1 ∧
    (runCompletions (joinInit (parallelForBlocks 100 10).length)
        (List.range 10)).fired = 1 ∧
    (runCompletions (joinInit (parallelForBlocks 100 10).length)
        ((List.range 10).take 9)).fired = 0 := by
  have h := parallelFor_covers_and_fires_once 100 10
  have hmem : ((0 : Nat), (10 : Nat)) ∈ parallelForBlocks 100 10 := by decide
  refine ⟨?_, ?_, ?_, ?_, ?_⟩
  · exact (h.1 5).mpr ⟨(0, 10), hmem, by decide, by decide⟩
  · exact h.2.1 (0, 10) hmem (0, 10) hmem 5
      (by decide) (by decide) (by decide) (by decide)
  · exact h.2.2.1 (by decide) (0, 10) hmem
  · exact (h.2.2.2 (List.range 10) (by decide)).1
  · exact (h.2.2.2 (List.range 10) (by decide)).2 9 (by decide)

/-- A second request for the same type's dense id returns the same id and
leaves the assignment state unchanged. -/
theorem denseId_idem (st : DenseIdState) (key : Nat) :
    DenseIdForSharedContext (DenseIdForSharedContext st key).2 key =
      ((DenseIdForSharedContext st key).1, (DenseIdForSharedContext st key).2) := by
  cases h : st.ids key with
  | some id => simp [DenseIdForSharedContext, h]
  | none => simp [DenseIdForSharedContext, h]

/-- Unfolding: a call whose type id is assigned and whose instance is stored
returns the stored instance, constructs nothing and leaves the state as it
was. -/
theorem getOrCreate_cached {st : SharedCtxState} {k i tok : Nat}
    (h1 : st.denseIds.ids k = some i) (h2 : st.contexts i = some tok) :
    GetOrCreateSharedContext st k = (tok, false, st) := by
  simp [GetOrCreateSharedContext, DenseIdForSharedContext, h1, h2]

/-- Unfolding: a call whose type id is assigned but whose instance is absent
constructs and stores a fresh instance. -/
theorem getOrCreate_build_known {st : SharedCtxState} {k i : Nat}
    (h1 : st.denseIds.ids k = some i) (h2 : st.contexts i = none) :
    GetOrCreateSharedContext st k =
      (st.nextToken, true,
       { denseIds := st.denseIds,
         contexts := fun j => if j = i then some st.nextToken else st.contexts j,
         nextToken := st.nextToken + 1 }) := by
  simp [GetOrCreateSharedContext, DenseIdForSharedContext, h1, h2]

/-- Unfolding: the first-ever call for a type assigns it the next dense id
and constructs and stores a fresh instance. -/
theorem getOrCreate_build_fresh {st : SharedCtxState} {k : Nat}
    (h1 : st.denseIds.ids k = none)
    (h2 : st.contexts st.denseIds.counter = none) :
    GetOrCreateSharedContext st k =
      (st.nextToken, true,
       { denseIds := { counter := st.denseIds.counter + 1,
                       ids := fun j => if j = k then some st.denseIds.counter
                              else st.denseIds.ids j },
         contexts := fun j => if j = st.denseIds.counter then some st.nextToken
                     else st.contexts j,
         nextToken := st.nextToken + 1 }) := by
  simp [GetOrCreateSharedContext, DenseIdForSharedContext, h1, h2]

/-- Unfolding of the call-sequence runner on a nonempty list. -/
theorem runSharedCtxCalls_cons (st : SharedCtxState) (k : Nat) (rest : List Nat) :
    runSharedCtxCalls st (k :: rest) =
      ((k, (GetOrCreateSharedContext st k).1, (GetOrCreateSharedContext st k).2.1) ::
        (runSharedCtxCalls (GetOrCreateSharedContext st k).2.2 rest).1,
       (runSharedCtxCalls (GetOrCreateSharedContext st k).2.2 rest).2) := rfl

/-- Well-formedness is preserved by every call. -/
theorem sharedInv_step (st : SharedCtxState) (k : Nat) (h : SharedInv st) :
    SharedInv (GetOrCreateSharedContext st k).2.2 := by
  obtain ⟨hinj, hlt, hnon⟩ := h
  cases h1 : st.denseIds.ids k with
  | some i =>
      cases h2 : st.contexts i with
      | some tok =>
          rw [getOrCreate_cached h1 h2]
          exact ⟨hinj, hlt, hnon⟩
      | none =>
          rw [getOrCreate_build_known h1 h2]
          refine ⟨hinj, hlt, ?_⟩
          intro j hj
          have hj2 : st.denseIds.counter ≤ j := hj
          have hi : i < st.denseIds.counter := hlt k i h1
          have hji : j ≠ i := by omega
          simp only []
          rw [if_neg hji]
          exact hnon j hj
  | none =>
      have h2 : st.contexts st.denseIds.counter = none := hnon _ (le_refl _)
      rw [getOrCreate_build_fresh h1 h2]
      refine ⟨?_, ?_, ?_⟩
      · intro a b i2 ha hb
        by_cases hak : a = k <;> by_cases hbk : b = k
        · rw [hak, hbk]
        · exfalso
          simp [hak] at ha
          simp [hbk] at hb
          have := hlt b i2 hb
          omega
        · exfalso
          simp [hak] at ha
          simp [hbk] at hb
          have := hlt a i2 ha
          omega
        · simp [hak] at ha
          simp [hbk] at hb
          exact hinj a b i2 ha hb
      · intro a i2 ha
        show i2 < st.denseIds.counter + 1
        by_cases hak : a = k
        · simp [hak] at ha
          omega
        · simp [hak] at ha
          have := hlt a i2 ha
          omega
      · intro j hj
        have hj2 : st.denseIds.counter + 1 ≤ j := hj
        have hjc : j ≠ st.denseIds.counter := by omega
        show (if j = st.denseIds.counter then some st.nextToken
              else st.contexts j) = none
        rw [if_neg hjc]
        exact hnon j (by omega)

/-- A call for a type whose instance is already stored returns exactly that
instance and does not construct. -/
theorem keyInst_step_ret (st : SharedCtxState) (k t : Nat)
    (hk : keyInst st k = some t) :
    (GetOrCreateSharedContext st k).1 = t ∧
    (GetOrCreateSharedContext st k).2.1 = false := by
  cases h1 : st.denseIds.ids k with
  | none => simp [keyInst, h1] at hk
  | some i =>
      have h2 : st.contexts i = some t := by simpa [keyInst, h1] using hk
      rw [getOrCreate_cached h1 h2]
      exact ⟨rfl, rfl⟩

/-- The first call for a type constructs: it returns a fresh instance,
reports construction, and afterwards that instance is stored. -/
theorem keyInst_step_build (st : SharedCtxState) (k : Nat) (hinv : SharedInv st)
    (hk : keyInst st k = none) :
    (GetOrCreateSharedContext st k).1 = st.nextToken ∧
    (GetOrCreateSharedContext st k).2.1 = true ∧
    keyInst (GetOrCreateSharedContext st k).2.2 k = some st.nextToken := by
  obtain ⟨hinj, hlt, hnon⟩ := hinv
  cases h1 : st.denseIds.ids k with
  | some i =>
      have h2 : st.contexts i = none := by simpa [keyInst, h1] using hk
      rw [getOrCreate_build_known h1 h2]
      refine ⟨rfl, rfl, ?_⟩
      simp [keyInst, h1]
  | none =>
      have h2 : st.contexts st.denseIds.counter = none := hnon _ (le_refl _)
      rw [getOrCreate_build_fresh h1 h2]
      refine ⟨rfl, rfl, ?_⟩
      simp [keyInst]

/-- A stored instance survives any later call, for any type. -/
theorem keyInst_step_keep (st : SharedCtxState) (k kc t : Nat)
    (hinv : SharedInv st) (hk : keyInst st k = some t) :
    keyInst (GetOrCreateSharedContext st kc).2.2 k = some t := by
  obtain ⟨hinj, hlt, hnon⟩ := hinv
  cases h1 : st.denseIds.ids k with
  | none => simp [keyInst, h1] at hk
  | some i =>
      have hci : st.contexts i = some t := by simpa [keyInst, h1] using hk
      cases h1c : st.denseIds.ids kc with
      | some ic =>
          cases h2c : st.contexts ic with
          | some tokc =>
              rw [getOrCreate_cached h1c h2c]
              simp [keyInst, h1, hci]
          | none =>
              rw [getOrCreate_build_known h1c h2c]
              have hii : i ≠ ic := by
                intro he
                rw [he, h2c] at hci
                exact absurd hci (by simp)
              simp [keyInst, h1, hii, hci]
      | none =>
          have h2 : st.contexts st.denseIds.counter = none := hnon _ (le_refl _)
          rw [getOrCreate_build_fresh h1c h2]
          have hkkc : k ≠ kc := by
            intro he
            rw [he, h1c] at h1
            exact absurd h1 (by simp)
          have hic : i ≠ st.denseIds.counter := by
            have := hlt k i h1
            omega
          simp [keyInst, hkkc, h1, hic, hci]

/-- A type with no stored instance still has none after a call for a
different type. -/
theorem keyInst_step_keep_none (st : SharedCtxState) (k kc : Nat)
    (hinv : SharedInv st) (hk : keyInst st k = none) (hne : kc ≠ k) :
    keyInst (GetOrCreateSharedContext st kc).2.2 k = none := by
  obtain ⟨hinj, hlt, hnon⟩ := hinv
  cases h1c : st.denseIds.ids kc with
  | some ic =>
      cases h2c : st.contexts ic with
      | some tokc =>
          rw [getOrCreate_cached h1c h2c]
          exact hk
      | none =>
          rw [getOrCreate_build_known h1c h2c]
          cases h1 : st.denseIds.ids k with
          | none => simp [keyInst, h1]
          | some i =>
              have hci : st.contexts i = none := by simpa [keyInst, h1] using hk
              have hii : i ≠ ic := by
                intro he
                exact hne (hinj kc k ic h1c (he ▸ h1))
              simp [keyInst, h1, hii, hci]
  | none =>
      have h2 : st.contexts st.denseIds.counter = none := hnon _ (le_refl _)
      rw [getOrCreate_build_fresh h1c h2]
      have hkkc : k ≠ kc := fun h => hne h.symm
      cases h1 : st.denseIds.ids k with
      | none => simp [keyInst, hkkc, h1]
      | some i =>
          have hci : st.contexts i = none := by simpa [keyInst, h1] using hk
          have hic : i ≠ st.denseIds.counter := by
            have := hlt k i h1
            omega
          simp [keyInst, hkkc, h1, hic, hci]

/-- Once a type's instance is stored, every later call observes exactly that
instance and never constructs. -/
theorem trace_all_cached (calls : List Nat) :
    ∀ (st : SharedCtxState) (k t : Nat), SharedInv st → keyInst st k = some t →
      ∀ tok b, (k, tok, b) ∈ (runSharedCtxCalls st calls).1 →
        tok = t ∧ b = false := by
  induction calls with
  | nil =>
      intro st k t _ _ tok b h
      simp [runSharedCtxCalls] at h
  | cons kc rest ih =>
      intro st k t hinv hk tok b hmem
      rw [runSharedCtxCalls_cons] at hmem
      rcases List.mem_cons.mp hmem with heq | htail
      · have hkkc : k = kc := by
          have := congrArg Prod.fst heq
          simpa using this
        subst hkkc
        have htok : tok = (GetOrCreateSharedContext st k).1 := by
          have := congrArg (fun p => p.2.1) heq
          simpa using this
        have hb : b = (GetOrCreateSharedContext st k).2.1 := by
          have := congrArg (fun p => p.2.2) heq
          simpa using this
        have hr := keyInst_step_ret st k t hk
        exact ⟨by rw [htok, hr.1], by rw [hb, hr.2]⟩
      · exact ih _ k t (sharedInv_step st kc hinv)
          (keyInst_step_keep st k kc t hinv hk) tok b htail

/-- From a state with no stored instance for `k`, any call sequence that
mentions `k` constructs for `k` exactly once, and every observation for `k`
returns the one instance built by the first such call. -/
theorem trace_builds_once (calls : List Nat) :
    ∀ (st : SharedCtxState) (k : Nat), SharedInv st → keyInst st k = none →
      k ∈ calls →
      countBuilt (runSharedCtxCalls st calls).1 k = 1 ∧
      ∀ t1 b1 t2 b2, (k, t1, b1) ∈ (runSharedCtxCalls st calls).1 →
        (k, t2, b2) ∈ (runSharedCtxCalls st calls).1 → t1 = t2 := by
  induction calls with
  | nil =>
      intro st k _ _ h
      exact absurd h (List.not_mem_nil k)
  | cons kc rest ih =>
      intro st k hinv hk hmem
      by_cases hkk : kc = k
      · subst hkk
        obtain ⟨hr1, hr2, hr3⟩ := keyInst_step_build st kc hinv hk
        have hinv1 := sharedInv_step st kc hinv
        have hall := trace_all_cached rest (GetOrCreateSharedContext st kc).2.2 kc
          st.nextToken hinv1 hr3
        have htail0 : countBuilt
            (runSharedCtxCalls (GetOrCreateSharedContext st kc).2.2 rest).1 kc = 0 := by
          unfold countBuilt
          rw [List.length_eq_zero, List.filter_eq_nil_iff]
          intro e he
          obtain ⟨e1, e2, e3⟩ := e
          by_cases he1 : e1 = kc
          · subst he1
            have := hall e2 e3 he
            simp [this.2]
          · simp [he1]
        constructor
        · rw [runSharedCtxCalls_cons]
          unfold countBuilt
          rw [List.filter_cons, if_pos (by simp [hr2]), List.length_cons]
          unfold countBuilt at htail0
          rw [htail0]
        · intro t1 b1 t2 b2 h1m h2m
          rw [runSharedCtxCalls_cons] at h1m h2m
          have htok : ∀ t b,
              (kc, t, b) ∈ ((kc, (GetOrCreateSharedContext st kc).1,
                  (GetOrCreateSharedContext st kc).2.1) ::
                (runSharedCtxCalls (GetOrCreateSharedContext st kc).2.2 rest).1) →
              t = st.nextToken := by
            intro t b hm
            rcases List.mem_cons.mp hm with heq | ht
            · have : t = (GetOrCreateSharedContext st kc).1 := by
                have := congrArg (fun p => p.2.1) heq
                simpa using this
              rw [this, hr1]
            · exact (hall t b ht).1
          rw [htok t1 b1 h1m, htok t2 b2 h2m]
      · have hmem2 : k ∈ rest := by
          rcases List.mem_cons.mp hmem with he | h
          · exact absurd he.symm hkk
          · exact h
        have hinv1 := sharedInv_step st kc hinv
        have hk1 := keyInst_step_keep_none st k kc hinv hk hkk
        have ih2 := ih (GetOrCreateSharedContext st kc).2.2 k hinv1 hk1 hmem2
        constructor
        · rw [runSharedCtxCalls_cons]
          unfold countBuilt
          rw [List.filter_cons, if_neg (by simp [hkk])]
          exact ih2.1
        · intro t1 b1 t2 b2 h1m h2m
          rw [runSharedCtxCalls_cons] at h1m h2m
          have h1t : (k, t1, b1) ∈
              (runSharedCtxCalls (GetOrCreateSharedContext st kc).2.2 rest).1 := by
            rcases List.mem_cons.mp h1m with he | h
            · exfalso
              have := congrArg Prod.fst he
              simp at this
              exact hkk this.symm
            · exact h
          have h2t : (k, t2, b2) ∈
              (runSharedCtxCalls (GetOrCreateSharedContext st kc).2.2 rest).1 := by
            rcases List.mem_cons.mp h2m with he | h
            · exfalso
              have := congrArg Prod.fst he
              simp at this
              exact hkk this.symm
            · exact h
          exact ih2.2 t1 b1 t2 b2 h1t h2t

/-- **C5.** `GetOrCreateSharedContext<T>()` constructs `T` exactly once per
(HostContext, type) pair: over any serialized sequence of calls on one
HostContext starting from a fresh process, a type that is requested at least
once is constructed exactly once, every call for it observes the identical
instance, and the process-wide dense id for a type is assigned exactly once
(a repeated id request returns the same id and leaves the assignment state
unchanged). -/
theorem sharedContext_constructs_once (calls : List Nat) (k : Nat)
    (hk : k ∈ calls) :
    countBuilt (runSharedCtxCalls initialSharedCtxState calls).1 k = 1 ∧
    (∀ t1 b1 t2 b2,
        (k, t1, b1) ∈ (runSharedCtxCalls initialSharedCtxState calls).1 →
        (k, t2, b2) ∈ (runSharedCtxCalls initialSharedCtxState calls).1 →
        t1 = t2) ∧
    (∀ (st : DenseIdState) (key : Nat),
        DenseIdForSharedContext (DenseIdForSharedContext st key).2 key =
          ((DenseIdForSharedContext st key).1,
           (DenseIdForSharedContext st key).2)) := by
  have hinv : SharedInv initialSharedCtxState := by
    refine ⟨?_, ?_, ?_⟩
    · intro a b i h
      simp [initialSharedCtxState] at h
    · intro a i h
      simp [initialSharedCtxState] at h
    · intro i _
      rfl
  have h := trace_builds_once calls initialSharedCtxState k hinv rfl hk
  exact ⟨h.1, h.2, fun st key => denseId_idem st key⟩

/-- **C5 witness.** Two calls for the same type key 5 from a fresh process:
one construction, and a repeated dense-id request is a no-op. -/
theorem sharedContext_constructs_once_witness :
    countBuilt (runSharedCtxCalls initialSharedCtxState [5, 5]).1 5 = 1 ∧
    DenseIdForSharedContext
        (DenseIdForSharedContext initialSharedCtxState.denseIds 5).2 5 =
      ((DenseIdForSharedContext initialSharedCtxState.denseIds 5).1,
       (DenseIdForSharedContext initialSharedCtxState.denseIds 5).2) := by
  have h := sharedContext_constructs_once [5, 5] 5 (List.mem_cons_self 5 [5])
  exact ⟨h.1, h.2.2 initialSharedCtxState.denseIds 5⟩

end HostContextSpec
